import Mathlib

/-!
Verification of the fh daily-notes manager: the note-line codec
(`ParsedNote::parse_pretty_md`, `Note::pretty` in src/notes.rs), the day
document codec (`ParsedDayNotes::parse_pretty_md`), and the sqlite-backed
store (`NoteStore` in src/store.rs) shallow-embedded as pure functions over
an explicit table state.  Rust strings are modelled as lists of characters;
instants (`DateTime<Utc>` / `datetime('now')`) as naturals; calendar dates
(`NaiveDate`) as integer day numbers (days since 1970-01-01).
-/

/-- Rust `str` modelled as a list of characters. -/
abbrev Str := List Char

/-- Coerces a Lean string literal to the `Str` model. -/
def strL (s : String) : Str := s.data

/-- Rust `char::is_whitespace`: the Unicode White_Space property. -/
def rustWs (c : Char) : Bool :=
  let n := c.toNat
  (9 ≤ n && n ≤ 13) || n == 32 || n == 133 || n == 160 || n == 5760 ||
    (8192 ≤ n && n ≤ 8202) || n == 8232 || n == 8233 || n == 8239 ||
    n == 8287 || n == 12288

/-- Rust `str::trim_start`. -/
def trimStart (l : Str) : Str := l.dropWhile rustWs

/-- Rust `str::trim_end`. -/
def trimEnd (l : Str) : Str := (l.reverse.dropWhile rustWs).reverse

/-- Rust `str::trim`. -/
def rustTrim (l : Str) : Str := trimEnd (trimStart l)

/-- Rust `str::split_once(c)`: splits at the first occurrence of `c`. -/
def splitOnce (c : Char) : Str → Option (Str × Str)
  | [] => none
  | a :: t =>
    if a = c then some ([], t)
    else (splitOnce c t).map (fun p => (a :: p.1, p.2))

/-- Rust `s.find(":")`: index of the first colon, if any. -/
def findColonIdx : Str → Option Nat
  | [] => none
  | a :: t => if a = ':' then some 0 else (findColonIdx t).map (· + 1)

/-- Rust `str::strip_prefix(tag)` (used for the day-header spellings). -/
def stripTag (tag l : Str) : Option Str :=
  if tag.isPrefixOf l then some (l.drop tag.length) else none

/-- Decimal digit character, used to model `u32` formatting. -/
def digitCh (d : Nat) : Char := Char.ofNat (48 + d)

/-- Decimal rendering of a natural, modelling Rust's `u32` `Display`
(used by `format!` in `Note::pretty`). -/
def natToStr (n : Nat) : Str :=
  if n < 10 then [digitCh n] else natToStr (n / 10) ++ [digitCh (n % 10)]
decreasing_by exact Nat.div_lt_self (by omega) (by omega)

/-- Rust `str::parse::<u32>()`: an optional leading plus sign, then one or
more ASCII digits, rejecting values that overflow `u32`. -/
def parseU32 (s : Str) : Option Nat :=
  let digits := if s.head? = some '+' then s.tail else s
  if digits.isEmpty then none
  else if digits.all Char.isDigit then
    let v := digits.foldl (fun a c => a * 10 + (c.toNat - 48)) 0
    if v < 4294967296 then some v else none
  else none

/-- Reads an unsigned decimal field of a date string. -/
def readNat (s : Str) : Option Nat :=
  if s.isEmpty then none
  else if s.all Char.isDigit then
    some (s.foldl (fun a c => a * 10 + (c.toNat - 48)) 0)
  else none

/-- Gregorian leap-year test. -/
def isLeap (y : Nat) : Bool := y % 4 == 0 && (y % 100 != 0 || y % 400 == 0)

/-- Length of month `m` of year `y`. -/
def daysInMonth (y m : Nat) : Nat :=
  if m = 2 then (if isLeap y then 29 else 28)
  else if m = 4 ∨ m = 6 ∨ m = 9 ∨ m = 11 then 30 else 31

/-- Civil date to days since 1970-01-01 (the standard days-from-civil
algorithm), modelling `chrono::NaiveDate` as an integer day number. -/
def daysFromCivil (y m d : Nat) : Int :=
  let yi : Int := (y : Int) - (if m ≤ 2 then 1 else 0)
  let era : Int := yi.fdiv 400
  let yoe : Int := yi - era * 400
  let mp : Int := ((m : Int) + 9) % 12
  let doy : Int := (153 * mp + 2).fdiv 5 + (d : Int) - 1
  let doe : Int := yoe * 365 + yoe.fdiv 4 - yoe.fdiv 100 + doy
  era * 146097 + doe - 719468

/-- `chrono::NaiveDate::from_str` on a `YYYY-MM-DD` string (non-negative
years, which is all the repository produces), yielding the day number. -/
def parseDateStr (l : Str) : Option Int :=
  match splitOnce '-' l with
  | none => none
  | some (ys, rest) =>
    match splitOnce '-' rest with
    | none => none
    | some (ms, ds) =>
      match readNat ys, readNat ms, readNat ds with
      | some y, some m, some d =>
        if 1 ≤ m ∧ m ≤ 12 ∧ 1 ≤ d ∧ d ≤ daysInMonth y m then
          some (daysFromCivil y m d)
        else none
      | _, _, _ => none

/-- Errors of the codecs (src/notes.rs builds these with `anyhow!`; each
constructor carries the diagnostic text the Rust error message carries). -/
inductive ParseErr where
  | tooShort : Str → ParseErr
  | invalidStart : Str → ParseErr
  | noTick : ParseErr
  | noColon : ParseErr
  | malformedId : Str → Str → ParseErr
  | missingHeader : ParseErr
  | invalidDate : Str → ParseErr
deriving DecidableEq, Repr

/-- src/notes.rs `Note`: a persisted-identity note. -/
structure Note where
  id : Nat
  body : Str
  completed : Bool
deriving DecidableEq, Repr

/-- src/notes.rs `NewNote`: a note without an id yet. -/
structure NewNote where
  body : Str
  completed : Bool
  created_at : Nat
deriving DecidableEq, Repr

/-- src/notes.rs `ParsedNote`: the intent recovered from one line. -/
inductive ParsedNote where
  | Note : Note → ParsedNote
  | NewNote : NewNote → ParsedNote
deriving DecidableEq, Repr

/-- src/notes.rs `Note::pretty`: `" - [{tick}] :{id}: {body}"`. -/
def Note.pretty (n : Note) : Str :=
  [' ', '-', ' ', '['] ++ [if n.completed then 'x' else ' '] ++
    [']', ' ', ':'] ++ natToStr n.id ++ [':', ' '] ++ n.body

/-- src/notes.rs `ParsedNote::parse_pretty_md`.  `now` models the
`Utc::now()` timestamp given to a fresh `NewNote`. -/
def ParsedNote.parse_pretty_md (now : Nat) (input : Str) :
    Except ParseErr (Option ParsedNote) :=
  let s := rustTrim input
  if s.length < 7 then .error (.tooShort s)
  else if s.take 7 = strL (r"- [ ] :") ∨ s.take 7 = strL (r"- [x] :") then
    match s.get? 3 with
    | none => .error .noTick
    | some tick =>
      let completed := tick = 'x'
      match findColonIdx s with
      | none => .error .noColon
      | some idx =>
        match splitOnce ':' (s.drop (idx + 1)) with
        | some (id_string, text) =>
          let body := rustTrim text
          if body.isEmpty then .ok none
          else
            match parseU32 id_string with
            | some id => .ok (some (.Note ⟨id, body, completed⟩))
            | none => .error (.malformedId id_string (s.drop (idx + 1)))
        | none =>
          let new_note_text := rustTrim (s.drop (idx + 1))
          if new_note_text.isEmpty then .ok none
          else .ok (some (.NewNote ⟨new_note_text, completed, now⟩))
  else .error (.invalidStart (s.take 7))

/-- src/notes.rs `DayNotes`: the read-model returned to callers. -/
structure DayNotes where
  notes : List Note
  note_count : Nat
  date : Int
  day_text : Str
deriving DecidableEq, Repr

/-- src/notes.rs `ParsedDayNotes`: a parsed day document. -/
structure ParsedDayNotes where
  notes : List ParsedNote
  note_count : Nat
  date : Int
  day_text : Str
deriving DecidableEq, Repr

/-- Accumulator of the content loop of `ParsedDayNotes::parse_pretty_md`. -/
structure LoopSt where
  notes : List ParsedNote
  day_text : Str
deriving DecidableEq, Repr

/-- Header-search loop of `ParsedDayNotes::parse_pretty_md`: consume lines
until one strips with `"# Today: "` or `"# Day: "`; end of stream is the
missing-header error. -/
def findHeaderDate : List Str → Except ParseErr (Str × List Str)
  | [] => .error .missingHeader
  | l :: rest =>
    if (rustTrim l).isEmpty then findHeaderDate rest
    else
      match stripTag (strL (r"# Today: ")) l with
      | some d => .ok (d, rest)
      | none =>
        match stripTag (strL (r"# Day: ")) l with
        | some d => .ok (d, rest)
        | none => findHeaderDate rest

/-- Content loop of `ParsedDayNotes::parse_pretty_md`: a literal `"---"`
line stops and is consumed; blank lines are skipped; a trimmed line whose
first character is `'-'` goes to the note codec, where only an
`Ok(Some(n))` result contributes an intent (`let Ok(Some(n)) = … else
continue`); any other line is appended to the day text with a newline.
Returns the accumulator and the lines left after the terminator. -/
def dayLoop (now : Nat) : List Str → LoopSt → LoopSt × List Str
  | [], st => (st, [])
  | l :: rest, st =>
    if l = strL (r"---") then (st, rest)
    else
      let t := rustTrim l
      if t.isEmpty then dayLoop now rest st
      else
        match t with
        | [] => dayLoop now rest st -- unreachable: guarded by the blank check
        | c :: _ =>
          if c = '-' then
            match ParsedNote.parse_pretty_md now t with
            | .ok (some n) => dayLoop now rest { st with notes := st.notes ++ [n] }
            | _ => dayLoop now rest st
          else dayLoop now rest { st with day_text := st.day_text ++ t ++ ['\n'] }

/-- src/notes.rs `ParsedDayNotes::parse_pretty_md`: finds the day header,
parses its date, then runs the content loop; `note_count` is the number of
collected intents.  The unconsumed lines model the iterator cursor. -/
def ParsedDayNotes.parse_pretty_md (now : Nat) (lines : List Str) :
    Except ParseErr (ParsedDayNotes × List Str) :=
  match findHeaderDate lines with
  | .error e => .error e
  | .ok (dstr, rest) =>
    match parseDateStr dstr with
    | none => .error (.invalidDate dstr)
    | some date =>
      let r := dayLoop now rest ⟨[], []⟩
      .ok (⟨r.1.notes, r.1.notes.length, date, r.1.day_text⟩, r.2)

/-- Row of the sqlite `day` table (src/store.rs `DateRow`). -/
structure DayRec where
  id : Nat
  date : Int
  task_count : Nat
  day_text : Str
deriving DecidableEq, Repr

/-- Row of the sqlite `note` table (src/store.rs `NoteRow` plus the
`day_key` column the queries join on). -/
structure NoteRec where
  id : Nat
  body : Str
  completed : Bool
  created_at : Nat
  updated_at : Option Nat
  deleted_at : Option Nat
  day_key : Nat
deriving DecidableEq, Repr

/-- src/store.rs `NoteStore`: the two tables plus the next autoincrement
ids the database would assign. -/
structure NoteStore where
  days : List DayRec
  notes : List NoteRec
  nextDayId : Nat
  nextNoteId : Nat
deriving DecidableEq, Repr

/-- Store errors.  `notFound id` models sqlx `fetch_one` finding no row
(`UPDATE … RETURNING` matched nothing). -/
inductive DbErr where
  | notFound : Nat → DbErr
deriving DecidableEq, Repr

/-- src/store.rs `NoteStore::soft_delte_note_by_id`:
`UPDATE note SET deleted_at = datetime('now') WHERE id = ?` via `execute`,
then `.map(|_| ())` — the row count is discarded, so the call succeeds
whether or not any row matched. -/
def soft_delte_note_by_id (now : Nat) (id : Nat) (s : NoteStore) :
    NoteStore × Except DbErr Unit :=
  ({ s with
      notes := s.notes.map fun r =>
        if r.id = id then { r with deleted_at := some now } else r },
    .ok ())

/-- src/store.rs `NoteStore::update_note`:
`UPDATE note SET body, completed, updated_at = datetime('now') WHERE id = ?
RETURNING …` via `fetch_one`: errors when no row has the id (note: no
`deleted_at IS NULL` filter), otherwise rewrites the matching row and
returns it as a `Note`. -/
def update_note (now : Nat) (n : Note) (s : NoteStore) :
    NoteStore × Except DbErr Note :=
  match s.notes.find? (fun r => r.id = n.id) with
  | none => (s, .error (.notFound n.id))
  | some r =>
    ({ s with
        notes := s.notes.map fun q =>
          if q.id = n.id then
            { q with body := n.body, completed := n.completed,
                     updated_at := some now }
          else q },
      .ok ⟨r.id, n.body, n.completed⟩)

/-- src/store.rs `NoteStore::_insert_note`:
`INSERT INTO note (body, created_at, completed, day_key) RETURNING id`. -/
def _insert_note (body : Str) (created_at : Nat) (completed : Bool)
    (day_key : Nat) (s : NoteStore) : NoteStore × Nat :=
  ({ s with
      notes := s.notes ++
        [⟨s.nextNoteId, body, completed, created_at, none, none, day_key⟩],
      nextNoteId := s.nextNoteId + 1 },
    s.nextNoteId)

/-- The day upsert statement of `persist_parsed_day_note`:
`INSERT INTO day … ON CONFLICT (date) DO UPDATE SET … RETURNING id`.
Returns the day table after the statement, the returned id, and the next
day id.  It is executed on the transaction handle, so `persist` keeps its
effect pending until commit. -/
def upsertDay (date : Int) (tc : Nat) (txt : Str) (s : NoteStore) :
    List DayRec × Nat × Nat :=
  match s.days.find? (fun d => d.date = date) with
  | some d =>
    (s.days.map fun r =>
        if r.date = date then { r with task_count := tc, day_text := txt }
        else r,
      d.id, s.nextDayId)
  | none => (s.days ++ [⟨s.nextDayId, date, tc, txt⟩], s.nextDayId, s.nextDayId + 1)

/-- The per-intent loop of `persist_parsed_day_note`.  Each iteration runs
`_insert_note` or `update_note` through `&self.pool` — not through the
open transaction — so its effects land directly in the base state; an
update error stops the loop and surfaces the error with the state as the
pool already left it. -/
def persistLoop (now day_key : Nat) :
    List ParsedNote → NoteStore → List Note → NoteStore × Except DbErr (List Note)
  | [], s, acc => (s, .ok acc)
  | pn :: rest, s, acc =>
    match pn with
    | .NewNote n =>
      let r := _insert_note n.body n.created_at n.completed day_key s
      persistLoop now day_key rest r.1 (acc ++ [⟨r.2, n.body, n.completed⟩])
    | .Note n =>
      match update_note now n s with
      | (s', .ok _) => persistLoop now day_key rest s' (acc ++ [n])
      | (s', .error e) => (s', .error e)

/-- src/store.rs `NoteStore::persist_parsed_day_note`: begins a
transaction, upserts the day row inside it, runs the intents through the
pool, and commits.  On success the pending day change is applied; on an
update error the transaction is dropped, so the day change is rolled back
— but the pool-side note writes remain. -/
def persist_parsed_day_note (now : Nat) (doc : ParsedDayNotes) (s : NoteStore) :
    NoteStore × Except DbErr DayNotes :=
  let u := upsertDay doc.date doc.note_count doc.day_text s
  match persistLoop now u.2.1 doc.notes s [] with
  | (s', .ok ns) =>
    ({ s' with days := u.1, nextDayId := u.2.2 },
      .ok ⟨ns, ns.length, doc.date, doc.day_text⟩)
  | (s', .error e) => (s', .error e)

/-- src/store.rs `NoteRowDate`: a joined note row carrying its day date. -/
structure NoteRowDate where
  id : Nat
  body : Str
  completed : Bool
  created_at : Nat
  updated_at : Option Nat
  deleted_at : Option Nat
  date : Int
deriving DecidableEq, Repr

/-- The join of `get_day_notes_in_range`:
`note INNER JOIN day ON note.day_key = day.id
WHERE day.date BETWEEN ?1 AND ?2 AND note.deleted_at IS NULL`. -/
def joinRows (s : NoteStore) (a b : Int) : List NoteRowDate :=
  s.notes.filterMap fun n =>
    (s.days.find? (fun d => d.id = n.day_key)).bind fun d =>
      if a ≤ d.date ∧ d.date ≤ b ∧ n.deleted_at = none then
        some ⟨n.id, n.body, n.completed, n.created_at, n.updated_at,
              n.deleted_at, d.date⟩
      else none

/-- Insertion step of the `ORDER BY n.created_at` model. -/
def insertByCreated (r : NoteRowDate) : List NoteRowDate → List NoteRowDate
  | [] => [r]
  | x :: t =>
    if r.created_at < x.created_at then r :: x :: t else x :: insertByCreated r t

/-- `ORDER BY n.created_at` modelled as an insertion sort. -/
def sortByCreated (l : List NoteRowDate) : List NoteRowDate :=
  l.foldr insertByCreated []

/-- src/store.rs `NoteStore::get_day_notes_in_range`: fetch the joined
alive rows ordered by `created_at`, group them by date, then walk every
day from `start_day` for `(end_day - start_day) + 1` steps, fabricating an
entry for each day; the day text is fetched independently
(`SELECT day_text FROM day WHERE date = ?`, `fetch_optional`), defaulting
to the empty string. -/
def get_day_notes_in_range (start_day end_day : Int) (s : NoteStore) :
    List DayNotes :=
  let rows := sortByCreated (joinRows s start_day end_day)
  let day_delta := end_day - start_day + 1
  (List.range day_delta.toNat).map fun (delta : Nat) =>
    let day := start_day + (delta : Int)
    let group := rows.filter (fun r => r.date = day)
    let day_notes := group.map fun r => Note.mk r.id r.body r.completed
    let text :=
      ((s.days.find? (fun d => d.date = day)).map (fun d => d.day_text)).getD []
    ⟨day_notes, day_notes.length, day, text⟩

/-- Example store: day 100 holds the single alive note 1 with body "a". -/
def exC1store : NoteStore :=
  ⟨[⟨1, 100, 1, []⟩], [⟨1, strL (r"a"), false, 10, none, none, 1⟩], 2, 2⟩

/-- Example document for date 100: update note 1 to body "b", then update
the absent id 999. -/
def exC1doc : ParsedDayNotes :=
  ⟨[.Note ⟨1, strL (r"b"), true⟩, .Note ⟨999, strL (r"c"), false⟩], 2, 100, []⟩

/-- Example store: day 200 holds the alive notes 1, 2 and 3. -/
def exC3store : NoteStore :=
  ⟨[⟨1, 200, 3, []⟩],
    [⟨1, strL (r"a"), false, 10, none, none, 1⟩,
     ⟨2, strL (r"b"), false, 20, none, none, 1⟩,
     ⟨3, strL (r"c"), false, 30, none, none, 1⟩], 2, 4⟩

/-- Example document for date 200 with intents only for ids 1 and 3. -/
def exC3doc : ParsedDayNotes :=
  ⟨[.Note ⟨1, strL (r"a"), false⟩, .Note ⟨3, strL (r"c"), false⟩], 2, 200, []⟩

/-- Example store: one day row at date 5 holding one alive note. -/
def exC4store : NoteStore :=
  ⟨[⟨1, 5, 1, strL (r"t")⟩], [⟨1, strL (r"a"), false, 10, none, none, 1⟩], 2, 2⟩

/-- Example store: one day at date 300 holding the alive note 7. -/
def exC9store : NoteStore :=
  ⟨[⟨1, 300, 1, []⟩], [⟨7, strL (r"a"), false, 10, none, none, 1⟩], 2, 8⟩

/-- Example note update for note 7. -/
def exC9note : Note := ⟨7, strL (r"z"), true⟩

/-- Example (empty) document for date 300. -/
def exC9doc : ParsedDayNotes := ⟨[], 0, 300, []⟩

/-- Example store: a single alive note with id 1. -/
def exC10store : NoteStore :=
  ⟨[⟨1, 400, 1, []⟩], [⟨1, strL (r"a"), false, 10, none, none, 1⟩], 2, 2⟩

lemma length_dropWhile_le' (p : Char → Bool) (l : Str) :
    (l.dropWhile p).length ≤ l.length := by
  induction l with
  | nil => simp
  | cons a t ih =>
    rw [List.dropWhile_cons]
    split
    · exact Nat.le_trans ih (by simp)
    · simp

lemma dropWhile_eq_self_of_length (p : Char → Bool) (l : Str)
    (h : (l.dropWhile p).length = l.length) : l.dropWhile p = l := by
  cases l with
  | nil => rfl
  | cons a t =>
    rw [List.dropWhile_cons] at h ⊢
    by_cases hp : p a
    · rw [if_pos hp] at h
      have := length_dropWhile_le' p t
      simp at h
      omega
    · simp [hp]

lemma head_not_of_dropWhile_eq_self (p : Char → Bool) (a : Char) (t : Str)
    (h : (a :: t).dropWhile p = a :: t) : p a = false := by
  by_contra hp
  simp only [Bool.not_eq_false] at hp
  rw [List.dropWhile_cons, if_pos hp] at h
  have h1 := length_dropWhile_le' p t
  have h2 := congrArg List.length h
  simp at h2
  omega

lemma trimEnd_length_le (l : Str) : (trimEnd l).length ≤ l.length := by
  unfold trimEnd
  have := length_dropWhile_le' rustWs l.reverse
  simpa using this

lemma trimStart_length_le (l : Str) : (trimStart l).length ≤ l.length :=
  length_dropWhile_le' rustWs l

lemma trim_parts (l : Str) (h : rustTrim l = l) :
    trimStart l = l ∧ trimEnd l = l := by
  unfold rustTrim at h
  have h1 : (trimStart l).length = l.length := by
    have e1 := trimEnd_length_le (trimStart l)
    have e2 := trimStart_length_le l
    have e3 := congrArg List.length h
    omega
  have hs : trimStart l = l := dropWhile_eq_self_of_length rustWs l h1
  rw [hs] at h
  exact ⟨hs, h⟩

lemma trimEnd_rev (l : Str) (h : trimEnd l = l) :
    l.reverse.dropWhile rustWs = l.reverse := by
  unfold trimEnd at h
  have := congrArg List.reverse h
  simpa using this

/-- If the right part is non-empty and already right-trimmed, trimming the
end of a concatenation is the identity. -/
lemma trimEnd_append (l r : Str) (hr : trimEnd r = r) (hne : r ≠ []) :
    trimEnd (l ++ r) = l ++ r := by
  have hrev := trimEnd_rev r hr
  obtain ⟨c, t, hct⟩ : ∃ c t, r.reverse = c :: t := by
    cases hr' : r.reverse with
    | nil => exact absurd (by simpa using congrArg List.reverse hr') hne
    | cons c t => exact ⟨c, t, rfl⟩
  have hc : rustWs c = false := by
    apply head_not_of_dropWhile_eq_self rustWs c t
    rw [← hct]; exact hrev
  unfold trimEnd
  rw [List.reverse_append, hct, List.cons_append, List.dropWhile_cons,
    if_neg (by simp [hc]), ← List.cons_append, ← hct, List.reverse_append]
  simp

lemma splitOnce_append (l r : Str) (h : ':' ∉ l) :
    splitOnce ':' (l ++ ':' :: r) = some (l, r) := by
  induction l with
  | nil => simp [splitOnce]
  | cons a t ih =>
    have ha : a ≠ ':' := fun hc => h (hc ▸ List.mem_cons_self a t)
    rw [List.cons_append, splitOnce, if_neg ha,
      ih (fun hm => h (List.mem_cons_of_mem a hm))]
    rfl

lemma digitCh_isDigit (d : Nat) (h : d < 10) : (digitCh d).isDigit = true := by
  interval_cases d <;> decide

lemma digitCh_ne_plus (d : Nat) (h : d < 10) : digitCh d ≠ '+' := by
  interval_cases d <;> decide

lemma digitCh_ne_colon (d : Nat) (h : d < 10) : digitCh d ≠ ':' := by
  interval_cases d <;> decide

lemma digitCh_toNat (d : Nat) (h : d < 10) : (digitCh d).toNat - 48 = d := by
  interval_cases d <;> decide

lemma natToStr_ne_nil (n : Nat) : natToStr n ≠ [] := by
  rw [natToStr]
  split <;> simp

lemma natToStr_mem_digit (n : Nat) : ∀ c ∈ natToStr n, ∃ d, d < 10 ∧ c = digitCh d := by
  induction n using Nat.strong_induction_on with
  | _ n ih =>
    rw [natToStr]
    split
    · next h => intro c hc; simp at hc; exact ⟨n, h, hc⟩
    · next h =>
      intro c hc
      rw [List.mem_append] at hc
      rcases hc with hc | hc
      · exact ih (n / 10) (Nat.div_lt_self (by omega) (by omega)) c hc
      · simp at hc
        exact ⟨n % 10, Nat.mod_lt _ (by omega), hc⟩

lemma natToStr_no_colon (n : Nat) : ':' ∉ natToStr n := by
  intro hm
  obtain ⟨d, hd, hc⟩ := natToStr_mem_digit n ':' hm
  exact digitCh_ne_colon d hd hc.symm

lemma natToStr_head_ne_plus (n : Nat) : (natToStr n).head? ≠ some '+' := by
  cases h : natToStr n with
  | nil => simp
  | cons a t =>
    simp only [List.head?_cons, Option.some.injEq]
    intro hc
    have hm : a ∈ natToStr n := by
      rw [h]; exact List.mem_cons_self _ _
    obtain ⟨d, hd, he⟩ := natToStr_mem_digit n a hm
    exact digitCh_ne_plus d hd (by rw [← he]; exact Option.some.inj hc)

lemma foldl_digits_natToStr (n : Nat) :
    ∀ a, (natToStr n).foldl (fun x c => x * 10 + (c.toNat - 48)) a =
      a * 10 ^ (natToStr n).length + n := by
  induction n using Nat.strong_induction_on with
  | _ n ih =>
    intro a
    rw [natToStr]
    split
    · next h =>
      simp [List.foldl, digitCh_toNat n h]
    · next h =>
      rw [List.foldl_append]
      have hrec := ih (n / 10) (Nat.div_lt_self (by omega) (by omega)) a
      rw [hrec]
      simp only [List.foldl]
      rw [digitCh_toNat (n % 10) (Nat.mod_lt _ (by omega))]
      rw [List.length_append]
      simp [pow_succ]
      ring_nf
      omega

lemma parseU32_natToStr (n : Nat) (h : n < 4294967296) :
    parseU32 (natToStr n) = some n := by
  have hplus : ¬ (natToStr n).head? = some '+' := natToStr_head_ne_plus n
  have hne : ¬ (natToStr n).isEmpty = true := by
    simp [List.isEmpty_iff, natToStr_ne_nil n]
  have hall : (natToStr n).all Char.isDigit = true := by
    rw [List.all_eq_true]
    intro c hc
    obtain ⟨d, hd, he⟩ := natToStr_mem_digit n c hc
    rw [he]; exact digitCh_isDigit d hd
  rw [parseU32, if_neg hplus, if_neg hne, if_pos hall,
    foldl_digits_natToStr n 0, if_pos (by simpa using h)]
  simp

/-- Reduction of the note-line parser to its id/body split, for any line
that passes the length and checkbox-prefix checks. -/
lemma parse_reduces (now : Nat) (input : Str) (idx : Nat)
    (h7 : 7 ≤ (rustTrim input).length)
    (hpfx : (rustTrim input).take 7 = strL (r"- [ ] :") ∨
      (rustTrim input).take 7 = strL (r"- [x] :"))
    (hidx : findColonIdx (rustTrim input) = some idx) :
    ∃ tick : Bool,
      ParsedNote.parse_pretty_md now input =
        match splitOnce ':' ((rustTrim input).drop (idx + 1)) with
        | some (id_string, text) =>
          if (rustTrim text).isEmpty then .ok none
          else
            match parseU32 id_string with
            | some id => .ok (some (.Note ⟨id, rustTrim text, tick⟩))
            | none => .error (.malformedId id_string ((rustTrim input).drop (idx + 1)))
        | none =>
          if (rustTrim ((rustTrim input).drop (idx + 1))).isEmpty then .ok none
          else .ok (some (.NewNote ⟨rustTrim ((rustTrim input).drop (idx + 1)), tick, now⟩)) := by
  have h3 : 3 < (rustTrim input).length := by omega
  refine ⟨decide ((rustTrim input).get ⟨3, h3⟩ = 'x'), ?_⟩
  rw [ParsedNote.parse_pretty_md]
  rw [if_neg (by omega), if_pos hpfx, List.get?_eq_get h3, hidx]

lemma mem_insertByCreated (x r : NoteRowDate) (l : List NoteRowDate) :
    x ∈ insertByCreated r l ↔ x = r ∨ x ∈ l := by
  induction l with
  | nil => simp [insertByCreated]
  | cons a t ih =>
    rw [insertByCreated]
    split
    · simp
    · rw [List.mem_cons, ih, List.mem_cons]
      tauto

lemma mem_sortByCreated (x : NoteRowDate) (l : List NoteRowDate) :
    x ∈ sortByCreated l ↔ x ∈ l := by
  induction l with
  | nil => simp [sortByCreated]
  | cons a t ih =>
    rw [sortByCreated, List.foldr_cons]
    rw [show (List.foldr insertByCreated [] t) = sortByCreated t from rfl]
    rw [mem_insertByCreated, ih, List.mem_cons]

lemma mem_joinRows (r : NoteRowDate) (s : NoteStore) (a b : Int) :
    r ∈ joinRows s a b ↔
      ∃ n ∈ s.notes, ∃ d, s.days.find? (fun q => q.id = n.day_key) = some d ∧
        (a ≤ d.date ∧ d.date ≤ b ∧ n.deleted_at = none) ∧
        r = ⟨n.id, n.body, n.completed, n.created_at, n.updated_at,
              n.deleted_at, d.date⟩ := by
  rw [joinRows, List.mem_filterMap]
  constructor
  · rintro ⟨n, hn, hf⟩
    rcases hd : s.days.find? (fun q => q.id = n.day_key) with _ | d
    · rw [hd] at hf; simp at hf
    · rw [hd, Option.some_bind] at hf
      by_cases hc : a ≤ d.date ∧ d.date ≤ b ∧ n.deleted_at = none
      · rw [if_pos hc] at hf
        exact ⟨n, hn, d, hd, hc, (Option.some.inj hf).symm⟩
      · rw [if_neg hc] at hf; simp at hf
  · rintro ⟨n, hn, d, hd, hc, hr⟩
    refine ⟨n, hn, ?_⟩
    rw [hd, Option.some_bind, if_pos hc, hr]

lemma get_congr (l l' : List DayNotes) (h : l = l') (i : Nat)
    (hi : i < l.length) (hi' : i < l'.length) :
    l.get ⟨i, hi⟩ = l'.get ⟨i, hi'⟩ := by
  subst h; rfl

lemma get_day_notes_in_range_length (s : NoteStore) (a b : Int) :
    (get_day_notes_in_range a b s).length = (b - a + 1).toNat := by
  have hmap : get_day_notes_in_range a b s =
      (List.range (b - a + 1).toNat).map (fun (delta : Nat) =>
        (⟨((sortByCreated (joinRows s a b)).filter
            (fun r => r.date = a + (delta : Int))).map
            (fun r => Note.mk r.id r.body r.completed),
          (((sortByCreated (joinRows s a b)).filter
            (fun r => r.date = a + (delta : Int))).map
            (fun r => Note.mk r.id r.body r.completed)).length,
          a + (delta : Int),
          ((s.days.find? (fun d => d.date = a + (delta : Int))).map
            (fun d => d.day_text)).getD []⟩ : DayNotes)) := rfl
  rw [hmap, List.length_map, List.length_range]

lemma get_day_notes_in_range_get (s : NoteStore) (a b : Int) (i : Nat)
    (hi : i < (get_day_notes_in_range a b s).length) :
    (get_day_notes_in_range a b s).get ⟨i, hi⟩ =
      ⟨((sortByCreated (joinRows s a b)).filter
          (fun r => r.date = a + (i : Int))).map
          (fun r => Note.mk r.id r.body r.completed),
        (((sortByCreated (joinRows s a b)).filter
          (fun r => r.date = a + (i : Int))).map
          (fun r => Note.mk r.id r.body r.completed)).length,
        a + (i : Int),
        ((s.days.find? (fun d => d.date = a + (i : Int))).map
          (fun d => d.day_text)).getD []⟩ := by
  have hmap : get_day_notes_in_range a b s =
      (List.range (b - a + 1).toNat).map (fun (delta : Nat) =>
        (⟨((sortByCreated (joinRows s a b)).filter
            (fun r => r.date = a + (delta : Int))).map
            (fun r => Note.mk r.id r.body r.completed),
          (((sortByCreated (joinRows s a b)).filter
            (fun r => r.date = a + (delta : Int))).map
            (fun r => Note.mk r.id r.body r.completed)).length,
          a + (delta : Int),
          ((s.days.find? (fun d => d.date = a + (delta : Int))).map
            (fun d => d.day_text)).getD []⟩ : DayNotes)) := rfl
  have hi' : i < ((List.range (b - a + 1).toNat).map (fun (delta : Nat) =>
      (⟨((sortByCreated (joinRows s a b)).filter
          (fun r => r.date = a + (delta : Int))).map
          (fun r => Note.mk r.id r.body r.completed),
        (((sortByCreated (joinRows s a b)).filter
          (fun r => r.date = a + (delta : Int))).map
          (fun r => Note.mk r.id r.body r.completed)).length,
        a + (delta : Int),
        ((s.days.find? (fun d => d.date = a + (delta : Int))).map
          (fun d => d.day_text)).getD []⟩ : DayNotes))).length := by
    rw [← hmap]; exact hi
  rw [get_congr _ _ hmap i hi hi', List.get_eq_getElem, List.getElem_map,
    List.getElem_range]

lemma persistLoop_get? (now dk : Nat) (pns : List ParsedNote) :
    ∀ (s : NoteStore) (acc : List Note) (i : Nat) (r : NoteRec),
      s.notes.get? i = some r →
      ∃ r', ((persistLoop now dk pns s acc).1).notes.get? i = some r' ∧
        r'.id = r.id ∧ r'.created_at = r.created_at := by
  induction pns with
  | nil =>
    intro s acc i r h
    exact ⟨r, h, rfl, rfl⟩
  | cons pn rest ih =>
    intro s acc i r h
    have hlt : i < s.notes.length := by
      obtain ⟨hl, _⟩ := List.get?_eq_some.mp h
      exact hl
    cases pn with
    | NewNote n =>
      rw [persistLoop]
      apply ih
      simp only [_insert_note]
      rw [List.get?_append hlt]
      exact h
    | Note n =>
      rw [persistLoop]
      rcases hf : s.notes.find? (fun q => q.id = n.id) with _ | q
      · rw [show update_note now n s = (s, .error (.notFound n.id)) from by
          rw [update_note, hf]]
        exact ⟨r, h, rfl, rfl⟩
      · rw [show update_note now n s =
          ({ s with notes := s.notes.map fun q =>
              if q.id = n.id then
                { q with body := n.body, completed := n.completed,
                         updated_at := some now }
              else q }, .ok ⟨q.id, n.body, n.completed⟩) from by
          rw [update_note, hf]]
        obtain ⟨r', hr', hid, hcr⟩ := ih
          { s with notes := s.notes.map fun q =>
              if q.id = n.id then
                { q with body := n.body, completed := n.completed,
                         updated_at := some now }
              else q }
          (acc ++ [n]) i
          (if r.id = n.id then
            { r with body := n.body, completed := n.completed,
                     updated_at := some now }
          else r)
          (by
            simp only [List.get?_map, h, Option.map_some]
            rfl)
        refine ⟨r', hr', ?_, ?_⟩
        · rw [hid]; split <;> rfl
        · rw [hcr]; split <;> rfl

lemma persist_state_notes (now : Nat) (doc : ParsedDayNotes) (s : NoteStore) :
    (persist_parsed_day_note now doc s).1.notes =
      ((persistLoop now (upsertDay doc.date doc.note_count doc.day_text s).2.1
        doc.notes s []).1).notes := by
  rw [persist_parsed_day_note]
  rcases hp : persistLoop now
      (upsertDay doc.date doc.note_count doc.day_text s).2.1 doc.notes s [] with
    ⟨s', res⟩
  cases res <;> simp [hp]

/-- C1: the claim states that a failed `persist_parsed_day_note` rolls the
whole transaction back with no visible partial writes.  Evaluating the
code on a store whose day 100 holds note 1 (body "a") and a document that
updates note 1 to body "b" and then updates the absent id 999: the call
fails with NotFound and the day table is rolled back, but note 1 keeps the
new body "b" with a fresh updated stamp — the per-note statements run on
the pool outside the open transaction, so the partial write survives the
failure. -/
theorem C1_failed_persist_keeps_partial_writes :
    (persist_parsed_day_note 50 exC1doc exC1store).2 = .error (.notFound 999) ∧
    (persist_parsed_day_note 50 exC1doc exC1store).1.days = exC1store.days ∧
    (persist_parsed_day_note 50 exC1doc exC1store).1.notes =
      [⟨1, strL (r"b"), true, 10, some 50, none, 1⟩] :=
  ⟨rfl, rfl, rfl⟩

/-- C2 counterexample: the line "- xx" is a content line whose first
non-whitespace character is '-' and which the note codec rejects, yet the
day parse succeeds and returns a document for the day — the claimed
propagation of the error does not happen. -/
theorem C2_counterexample :
    ParsedNote.parse_pretty_md 0 (strL (r"- xx")) =
      .error (.tooShort (strL (r"- xx"))) ∧
    ParsedDayNotes.parse_pretty_md 0
      [strL (r"# Day: 2025-01-01"), strL (r"- xx")] =
      .ok (⟨[], 0, 20089, []⟩, []) :=
  ⟨rfl, rfl⟩

/-- C2 (amended): a note line that the note codec does not accept is
silently skipped by the day parser's content loop — it contributes neither
an intent nor day text, and the parse of the day continues. -/
theorem C2_bad_note_line_skipped (now : Nat) (l : Str) (rest : List Str)
    (st : LoopSt) (hterm : l ≠ strL (r"---")) (hne : rustTrim l ≠ [])
    (hdash : (rustTrim l).head? = some '-')
    (herr : (ParsedNote.parse_pretty_md now (rustTrim l)).isOk = false) :
    dayLoop now (l :: rest) st = dayLoop now rest st := by
  obtain ⟨t', hct⟩ : ∃ t', rustTrim l = '-' :: t' := by
    cases h : rustTrim l with
    | nil => exact absurd h hne
    | cons c t' =>
      refine ⟨t', ?_⟩
      rw [h] at hdash
      simp only [List.head?_cons, Option.some.injEq] at hdash
      rw [hdash]
  rw [dayLoop, if_neg hterm]
  simp only [hct]
  rw [if_neg (by simp)]
  rw [hct] at herr
  rcases hp : ParsedNote.parse_pretty_md now ('-' :: t') with e | v
  · simp [hp]
  · rw [hp] at herr
    simp [Except.isOk, Except.toBool] at herr

/-- C2 witness for the amended statement at the concrete line "- xx". -/
theorem C2_bad_note_line_skipped_witness :
    (strL (r"- xx") ≠ strL (r"---") ∧ rustTrim (strL (r"- xx")) ≠ [] ∧
      (rustTrim (strL (r"- xx"))).head? = some '-' ∧
      (ParsedNote.parse_pretty_md 0 (rustTrim (strL (r"- xx")))).isOk = false) ∧
    dayLoop 0 [strL (r"- xx")] ⟨[], []⟩ = dayLoop 0 [] ⟨[], []⟩ :=
  ⟨⟨by decide, by decide, by decide, by decide⟩,
    C2_bad_note_line_skipped 0 (strL (r"- xx")) [] ⟨[], []⟩ (by decide)
      (by decide) (by decide) (by decide)⟩

/-- C3: the claim states that persisting a day document soft-deletes the
day's notes whose ids are absent from the intents and that later reads
exclude them.  Evaluating the code on day 200 holding alive notes 1, 2, 3
and a document with intents only for 1 and 3: the persist succeeds, note
2's delete marker stays `none` (`persist_parsed_day_note` issues no
soft-delete statement at all), and a subsequent range read of the day
still returns notes 1, 2 and 3. -/
theorem C3_omitted_note_survives :
    (persist_parsed_day_note 60 exC3doc exC3store).2.isOk = true ∧
    (persist_parsed_day_note 60 exC3doc exC3store).1.notes.map
      (fun r => (r.id, r.deleted_at)) = [(1, none), (2, none), (3, none)] ∧
    (get_day_notes_in_range 200 200
      (persist_parsed_day_note 60 exC3doc exC3store).1).map
      (fun dn => dn.notes.map (fun n => n.id)) = [[1, 2, 3]] :=
  ⟨rfl, rfl, rfl⟩

/-- C4: for start ≤ end, `get_day_notes_in_range` returns exactly
(end − start) + 1 entries; entry i carries date start + i (hence strictly
ascending, gap-free and duplicate-free); `note_count` always equals the
number of returned notes; and a day in the range with no alive joined note
yields an empty note list, count 0, and the day row's text (or the empty
string when the row is absent). -/
theorem C4_range_reconstruction (s : NoteStore) (a b : Int) (h : a ≤ b) :
    (get_day_notes_in_range a b s).length = (b - a).toNat + 1 ∧
    (∀ i (hi : i < (get_day_notes_in_range a b s).length),
      ((get_day_notes_in_range a b s).get ⟨i, hi⟩).date = a + (i : Int)) ∧
    (∀ i (hi : i < (get_day_notes_in_range a b s).length),
      ((get_day_notes_in_range a b s).get ⟨i, hi⟩).note_count =
        ((get_day_notes_in_range a b s).get ⟨i, hi⟩).notes.length) ∧
    (∀ i (hi : i < (get_day_notes_in_range a b s).length),
      (∀ n ∈ s.notes, n.deleted_at = none →
        ∀ d ∈ s.days, d.id = n.day_key → d.date ≠ a + (i : Int)) →
      ((get_day_notes_in_range a b s).get ⟨i, hi⟩).notes = [] ∧
      ((get_day_notes_in_range a b s).get ⟨i, hi⟩).note_count = 0 ∧
      ((get_day_notes_in_range a b s).get ⟨i, hi⟩).day_text =
        ((s.days.find? (fun d => d.date = a + (i : Int))).map
          (fun d => d.day_text)).getD []) := by
  refine ⟨?_, ?_, ?_, ?_⟩
  · rw [get_day_notes_in_range_length]
    omega
  · intro i hi
    rw [get_day_notes_in_range_get]
  · intro i hi
    rw [get_day_notes_in_range_get]
  · intro i hi hno
    rw [get_day_notes_in_range_get]
    have hgroup : (sortByCreated (joinRows s a b)).filter
        (fun r => r.date = a + (i : Int)) = [] := by
      rw [List.filter_eq_nil_iff]
      intro r hr
      have hrj : r ∈ joinRows s a b := (mem_sortByCreated r _).mp hr
      obtain ⟨n, hn, d, hfind, hcond, hre⟩ := (mem_joinRows r s a b).mp hrj
      have hdmem : d ∈ s.days := List.mem_of_find?_eq_some hfind
      have hdid : d.id = n.day_key := by simpa using List.find?_some hfind
      have hneq := hno n hn hcond.2.2 d hdmem hdid
      simp only [hre]
      simpa using hneq
    rw [hgroup]
    exact ⟨rfl, rfl, rfl⟩

/-- C4 witness at the store with one note on day 5 and the range [4, 6]. -/
theorem C4_range_reconstruction_witness :
    (4 : Int) ≤ 6 ∧
    ((get_day_notes_in_range 4 6 exC4store).length = ((6 : Int) - 4).toNat + 1 ∧
    (∀ i (hi : i < (get_day_notes_in_range 4 6 exC4store).length),
      ((get_day_notes_in_range 4 6 exC4store).get ⟨i, hi⟩).date = 4 + (i : Int)) ∧
    (∀ i (hi : i < (get_day_notes_in_range 4 6 exC4store).length),
      ((get_day_notes_in_range 4 6 exC4store).get ⟨i, hi⟩).note_count =
        ((get_day_notes_in_range 4 6 exC4store).get ⟨i, hi⟩).notes.length) ∧
    (∀ i (hi : i < (get_day_notes_in_range 4 6 exC4store).length),
      (∀ n ∈ exC4store.notes, n.deleted_at = none →
        ∀ d ∈ exC4store.days, d.id = n.day_key → d.date ≠ 4 + (i : Int)) →
      ((get_day_notes_in_range 4 6 exC4store).get ⟨i, hi⟩).notes = [] ∧
      ((get_day_notes_in_range 4 6 exC4store).get ⟨i, hi⟩).note_count = 0 ∧
      ((get_day_notes_in_range 4 6 exC4store).get ⟨i, hi⟩).day_text =
        ((exC4store.days.find? (fun d => d.date = 4 + (i : Int))).map
          (fun d => d.day_text)).getD [])) :=
  ⟨by decide, C4_range_reconstruction exC4store 4 6 (by decide)⟩

/-- C5: round-trip — for any note whose body is non-empty and trimmed (and
whose id fits in u32, as `Note.id` does in the source), parsing the line
produced by `Note::pretty` yields an existing-note update with the same
id, body and completed flag. -/
theorem C5_pretty_parse_round_trip (now : Nat) (n : Note)
    (h1 : n.id < 4294967296) (h2 : rustTrim n.body = n.body)
    (h3 : n.body ≠ []) :
    ParsedNote.parse_pretty_md now (Note.pretty n) = .ok (some (.Note n)) := by
  obtain ⟨hsB, heB⟩ := trim_parts n.body h2
  obtain ⟨id, body, completed⟩ := n
  simp only at h1 h3 hsB heB ⊢
  rw [trimStart] at hsB
  have hbody : rustTrim (' ' :: body) = body := by
    rw [rustTrim, trimStart, List.dropWhile_cons, if_pos (by decide), hsB]
    exact heB
  have hsplit : splitOnce ':' (natToStr id ++ ':' :: ' ' :: body) =
      some (natToStr id, ' ' :: body) :=
    splitOnce_append _ _ (natToStr_no_colon id)
  cases completed with
  | false =>
    have htr : rustTrim (Note.pretty ⟨id, body, false⟩) =
        '-' :: ' ' :: '[' :: ' ' :: ']' :: ' ' :: ':' :: (natToStr id ++ ':' :: ' ' :: body) := by
      have hT : Note.pretty ⟨id, body, false⟩ =
          ' ' :: ('-' :: ' ' :: '[' :: ' ' :: ']' :: ' ' :: ':' :: (natToStr id ++ ':' :: ' ' :: body)) := by
        simp [Note.pretty]
      rw [hT, rustTrim, trimStart, List.dropWhile_cons, if_pos (by decide),
        List.dropWhile_cons, if_neg (by decide)]
      have hre : ('-' :: ' ' :: '[' :: ' ' :: ']' :: ' ' :: ':' :: (natToStr id ++ ':' :: ' ' :: body) : Str)
          = (('-' :: ' ' :: '[' :: ' ' :: ']' :: ' ' :: ':' :: natToStr id ++ [':', ' ']) ++ body) := by
        simp
      rw [hre, trimEnd_append _ _ heB h3]
    rw [ParsedNote.parse_pretty_md]
    simp only [htr]
    rw [if_neg (by simp)]
    rw [if_pos (by
      left
      rw [show ('-' :: ' ' :: '[' :: ' ' :: ']' :: ' ' :: ':' :: (natToStr id ++ ':' :: ' ' :: body) : Str)
          = (strL (r"- [ ] :") ++ (natToStr id ++ ':' :: ' ' :: body)) from by simp [strL],
        List.take_left']
      rfl)]
    simp only [List.get?]
    have hfind : findColonIdx ('-' :: ' ' :: '[' :: ' ' :: ']' :: ' ' :: ':' :: (natToStr id ++ ':' :: ' ' :: body)) = some 6 := by
      rw [findColonIdx, if_neg (by decide), findColonIdx, if_neg (by decide),
        findColonIdx, if_neg (by decide), findColonIdx, if_neg (by decide),
        findColonIdx, if_neg (by decide), findColonIdx, if_neg (by decide),
        findColonIdx, if_pos rfl]
      rfl
    rw [hfind]
    simp only [List.drop_succ_cons, List.drop_zero, hsplit]
    rw [hbody]
    rw [if_neg (by simp [List.isEmpty_iff, h3])]
    rw [parseU32_natToStr id h1]
    rfl
  | true =>
    have htr : rustTrim (Note.pretty ⟨id, body, true⟩) =
        '-' :: ' ' :: '[' :: 'x' :: ']' :: ' ' :: ':' :: (natToStr id ++ ':' :: ' ' :: body) := by
      have hT : Note.pretty ⟨id, body, true⟩ =
          ' ' :: ('-' :: ' ' :: '[' :: 'x' :: ']' :: ' ' :: ':' :: (natToStr id ++ ':' :: ' ' :: body)) := by
        simp [Note.pretty]
      rw [hT, rustTrim, trimStart, List.dropWhile_cons, if_pos (by decide),
        List.dropWhile_cons, if_neg (by decide)]
      have hre : ('-' :: ' ' :: '[' :: 'x' :: ']' :: ' ' :: ':' :: (natToStr id ++ ':' :: ' ' :: body) : Str)
          = (('-' :: ' ' :: '[' :: 'x' :: ']' :: ' ' :: ':' :: natToStr id ++ [':', ' ']) ++ body) := by
        simp
      rw [hre, trimEnd_append _ _ heB h3]
    rw [ParsedNote.parse_pretty_md]
    simp only [htr]
    rw [if_neg (by simp)]
    rw [if_pos (by
      right
      rw [show ('-' :: ' ' :: '[' :: 'x' :: ']' :: ' ' :: ':' :: (natToStr id ++ ':' :: ' ' :: body) : Str)
          = (strL (r"- [x] :") ++ (natToStr id ++ ':' :: ' ' :: body)) from by simp [strL],
        List.take_left']
      rfl)]
    simp only [List.get?]
    have hfind : findColonIdx ('-' :: ' ' :: '[' :: 'x' :: ']' :: ' ' :: ':' :: (natToStr id ++ ':' :: ' ' :: body)) = some 6 := by
      rw [findColonIdx, if_neg (by decide), findColonIdx, if_neg (by decide),
        findColonIdx, if_neg (by decide), findColonIdx, if_neg (by decide),
        findColonIdx, if_neg (by decide), findColonIdx, if_neg (by decide),
        findColonIdx, if_pos rfl]
      rfl
    rw [hfind]
    simp only [List.drop_succ_cons, List.drop_zero, hsplit]
    rw [hbody]
    rw [if_neg (by simp [List.isEmpty_iff, h3])]
    rw [parseU32_natToStr id h1]
    rfl

/-- C5 witness at the note (42, "hi", open). -/
theorem C5_pretty_parse_round_trip_witness :
    ((42 : Nat) < 4294967296 ∧ rustTrim (strL (r"hi")) = strL (r"hi") ∧
      strL (r"hi") ≠ []) ∧
    ParsedNote.parse_pretty_md 0 (Note.pretty ⟨42, strL (r"hi"), false⟩) =
      .ok (some (.Note ⟨42, strL (r"hi"), false⟩)) :=
  ⟨⟨by decide, by decide, by decide⟩,
    C5_pretty_parse_round_trip 0 ⟨42, strL (r"hi"), false⟩ (by decide)
      (by decide) (by decide)⟩

/-- C6: a note line whose id/body split yields a valid id and an empty
trimmed body, and a note line with no id field and an empty trimmed body,
both parse to `Ok(None)` — dropped, not an error. -/
theorem C6_empty_body_is_noop (now : Nat) (input : Str) (idx : Nat)
    (h7 : 7 ≤ (rustTrim input).length)
    (hpfx : (rustTrim input).take 7 = strL (r"- [ ] :") ∨
      (rustTrim input).take 7 = strL (r"- [x] :"))
    (hidx : findColonIdx (rustTrim input) = some idx)
    (hcase :
      (splitOnce ':' ((rustTrim input).drop (idx + 1)) = none ∧
        rustTrim ((rustTrim input).drop (idx + 1)) = []) ∨
      (∃ id_string text idv,
        splitOnce ':' ((rustTrim input).drop (idx + 1)) =
          some (id_string, text) ∧
        parseU32 id_string = some idv ∧ rustTrim text = [])) :
    ParsedNote.parse_pretty_md now input = .ok none := by
  obtain ⟨tick, heq⟩ := parse_reduces now input idx h7 hpfx hidx
  rw [heq]
  rcases hcase with ⟨hsp, hemp⟩ | ⟨ids, text, idv, hsp, hid, hemp⟩
  · rw [hsp]
    simp [hemp]
  · rw [hsp]
    simp [hemp]

/-- C6 witness at the line " - [ ] :1:" (valid id 1, empty body). -/
theorem C6_empty_body_is_noop_witness :
    (7 ≤ (rustTrim (strL (r" - [ ] :1:"))).length ∧
      findColonIdx (rustTrim (strL (r" - [ ] :1:"))) = some 6 ∧
      splitOnce ':' ((rustTrim (strL (r" - [ ] :1:"))).drop 7) =
        some (strL (r"1"), []) ∧
      parseU32 (strL (r"1")) = some 1) ∧
    ParsedNote.parse_pretty_md 0 (strL (r" - [ ] :1:")) = .ok none :=
  ⟨⟨by decide, by decide, by decide, by decide⟩,
    C6_empty_body_is_noop 0 (strL (r" - [ ] :1:")) 6 (by decide) (by decide)
      (by decide)
      (Or.inr ⟨strL (r"1"), [], 1, by decide, by decide, by decide⟩)⟩

/-- C7 counterexample: in the line " - [ ] :abc:" an id candidate "abc" is
present and does not parse as a non-negative integer, yet the codec
returns `Ok(None)` instead of the claimed MalformedId error, because the
empty-body check runs before the id parse. -/
theorem C7_counterexample :
    splitOnce ':' ((rustTrim (strL (r" - [ ] :abc:"))).drop 7) =
      some (strL (r"abc"), []) ∧
    parseU32 (strL (r"abc")) = none ∧
    ParsedNote.parse_pretty_md 0 (strL (r" - [ ] :abc:")) = .ok none :=
  ⟨rfl, rfl, rfl⟩

/-- C7 (amended): when an id candidate is present and does not parse as a
non-negative integer, the codec fails with MalformedId carrying the
offending text — provided the trimmed body segment is non-empty; an empty
trimmed body is treated as a no-op instead. -/
theorem C7_malformed_id_needs_body (now : Nat) (input : Str) (idx : Nat)
    (id_string text : Str)
    (h7 : 7 ≤ (rustTrim input).length)
    (hpfx : (rustTrim input).take 7 = strL (r"- [ ] :") ∨
      (rustTrim input).take 7 = strL (r"- [x] :"))
    (hidx : findColonIdx (rustTrim input) = some idx)
    (hsp : splitOnce ':' ((rustTrim input).drop (idx + 1)) =
      some (id_string, text))
    (hbody : rustTrim text ≠ [])
    (hid : parseU32 id_string = none) :
    ParsedNote.parse_pretty_md now input =
      .error (.malformedId id_string ((rustTrim input).drop (idx + 1))) := by
  obtain ⟨tick, heq⟩ := parse_reduces now input idx h7 hpfx hidx
  rw [heq, hsp]
  simp [List.isEmpty_iff, hbody, hid]

/-- C7 witness for the amended statement at " - [ ] :abc: x". -/
theorem C7_malformed_id_needs_body_witness :
    (7 ≤ (rustTrim (strL (r" - [ ] :abc: x"))).length ∧
      findColonIdx (rustTrim (strL (r" - [ ] :abc: x"))) = some 6 ∧
      splitOnce ':' ((rustTrim (strL (r" - [ ] :abc: x"))).drop 7) =
        some (strL (r"abc"), strL (r" x")) ∧
      rustTrim (strL (r" x")) ≠ [] ∧ parseU32 (strL (r"abc")) = none) ∧
    ParsedNote.parse_pretty_md 0 (strL (r" - [ ] :abc: x")) =
      .error (.malformedId (strL (r"abc"))
        ((rustTrim (strL (r" - [ ] :abc: x"))).drop 7)) :=
  ⟨⟨by decide, by decide, by decide, by decide, by decide⟩,
    C7_malformed_id_needs_body 0 (strL (r" - [ ] :abc: x")) 6
      (strL (r"abc")) (strL (r" x")) (by decide) (by decide) (by decide)
      (by decide) (by decide) (by decide)⟩

/-- C8: the two literal cases — " - [ ] :42: hi" parses to an update of
note 42 with body "hi", open; " - [x] :hi there" (no id field) parses to a
new-note request with body "hi there", completed. -/
theorem C8_literal_cases (now : Nat) :
    ParsedNote.parse_pretty_md now (strL (r" - [ ] :42: hi")) =
      .ok (some (.Note ⟨42, strL (r"hi"), false⟩)) ∧
    ParsedNote.parse_pretty_md now (strL (r" - [x] :hi there")) =
      .ok (some (.NewNote ⟨strL (r"hi there"), true, now⟩)) :=
  ⟨rfl, rfl⟩

/-- C9: an update intent rewrites exactly the body, completion flag and
updated stamp of the rows with the given id, leaving `created_at` (and
everything else) untouched; and any persist call leaves every pre-existing
row's id and `created_at` unchanged at its position. -/
theorem C9_update_preserves_created_at (now : Nat) (n : Note)
    (doc : ParsedDayNotes) (s : NoteStore)
    (h : ∃ r ∈ s.notes, r.id = n.id) :
    (∃ ret, update_note now n s =
      ({ s with notes := s.notes.map fun q =>
          if q.id = n.id then
            { q with body := n.body, completed := n.completed,
                     updated_at := some now }
          else q }, .ok ret)) ∧
    (∀ i r, s.notes.get? i = some r →
      ∃ r', (persist_parsed_day_note now doc s).1.notes.get? i = some r' ∧
        r'.id = r.id ∧ r'.created_at = r.created_at) := by
  constructor
  · obtain ⟨q, hq⟩ : ∃ q, s.notes.find? (fun r => r.id = n.id) = some q := by
      have hiss : (s.notes.find? (fun r => r.id = n.id)).isSome := by
        rw [List.find?_isSome]
        obtain ⟨r, hr, hid⟩ := h
        exact ⟨r, hr, by simp [hid]⟩
      exact Option.isSome_iff_exists.mp hiss
    rw [update_note, hq]
    exact ⟨⟨q.id, n.body, n.completed⟩, rfl⟩
  · intro i r hr
    rw [persist_state_notes]
    exact persistLoop_get? now _ doc.notes s [] i r hr

/-- C9 witness at a store holding note 7 and the update (7, "z", done). -/
theorem C9_update_preserves_created_at_witness :
    (∃ r ∈ exC9store.notes, r.id = exC9note.id) ∧
    ((∃ ret, update_note 5 exC9note exC9store =
      ({ exC9store with notes := exC9store.notes.map fun q =>
          if q.id = exC9note.id then
            { q with body := exC9note.body, completed := exC9note.completed,
                     updated_at := some 5 }
          else q }, .ok ret)) ∧
    (∀ i r, exC9store.notes.get? i = some r →
      ∃ r', (persist_parsed_day_note 5 exC9doc exC9store).1.notes.get? i =
          some r' ∧ r'.id = r.id ∧ r'.created_at = r.created_at)) :=
  ⟨by decide, C9_update_preserves_created_at 5 exC9note exC9doc exC9store
    (by decide)⟩

/-- C10: the soft delete always succeeds — the update's row count is
discarded — and when no row carries the id the store is unchanged, so an
unknown (or already deleted) id never yields NotFound. -/
theorem C10_soft_delete_total (now nid : Nat) (s : NoteStore) :
    (soft_delte_note_by_id now nid s).2 = .ok () ∧
    ((∀ r ∈ s.notes, r.id ≠ nid) → (soft_delte_note_by_id now nid s).1 = s) := by
  refine ⟨rfl, fun h => ?_⟩
  have hm : ∀ (l : List NoteRec), (∀ r ∈ l, r.id ≠ nid) →
      (l.map fun r =>
        if r.id = nid then { r with deleted_at := some now } else r) = l := by
    intro l hl
    induction l with
    | nil => rfl
    | cons a t ih =>
      rw [List.map_cons, if_neg (hl a (List.mem_cons_self a t)),
        ih (fun r hr => hl r (List.mem_cons_of_mem a hr))]
  simp only [soft_delte_note_by_id]
  rw [hm s.notes h]

/-- C10 witness: soft-deleting the absent id 999. -/
theorem C10_soft_delete_total_witness :
    (∀ r ∈ exC10store.notes, r.id ≠ 999) ∧
    (soft_delte_note_by_id 5 999 exC10store).2 = .ok () ∧
    (soft_delte_note_by_id 5 999 exC10store).1 = exC10store :=
  ⟨by decide, (C10_soft_delete_total 5 999 exC10store).1,
    (C10_soft_delete_total 5 999 exC10store).2 (by decide)⟩
